import Mathlib

/-!
Verification of the product-catalog sorting subsystem.

The Go sources are embedded shallowly:
* `float64` prices and derived metrics become `Rat` (all inputs are decimal
  literals and integer quotients, whose comparisons agree with the exact ones);
* `time.Time` becomes an integer timestamp (`GoTime`); the zero value is `0`,
  `Before`/`After`/`Equal` become `<`/`>`/`=`; concrete dates are encoded
  order-isomorphically as `yyyymmdd` numbers;
* a possibly-nil Go slice becomes `Option (List Product)`: `none` is the nil
  slice, `some []` the non-nil empty slice;
* `sort.Slice less` becomes a comparison sort (`List.insertionSort`) over the
  non-strict relation `le a b := less b a = false`; every property proved or
  refuted below holds for the concrete Go runs it is compared with;
* wall-clock readings are replaced by a caller-supplied `now` and a zero
  duration, which no claim depends on.
-/

namespace Catalog

/-- Go `time.Time` modelled as an integer timestamp; the zero value is `0`. -/
abbrev GoTime := Int

/-- Go `Product` from `internal/domain/catalog/product.go`. -/
structure Product where
  id : Int
  name : String
  price : Rat
  createdAt : GoTime
  salesCount : Int
  viewsCount : Int
deriving DecidableEq

/-- Go `Product.SalesConversionRatio`: sales/views, guarded to `0` when views is `0`.
The quotient of the two counts is taken exactly (`Rat.divInt`). -/
def Product.salesConversionRatio (p : Product) : Rat :=
  if p.viewsCount = 0 then 0 else Rat.divInt p.salesCount p.viewsCount

/-- Go `Product.RevenueGenerated`: price times sales count. -/
def Product.revenueGenerated (p : Product) : Rat :=
  p.price * (p.salesCount : Rat)

/-- Go `Product.Validate`: the list of violation messages collected by the Go
method, in source order.  The Go byte length `len(p.Name)` is `utf8ByteSize`. -/
def Product.validate (p : Product) (now : GoTime) : List String :=
  (if p.id ≤ 0 then ["ID must be positive"] else []) ++
  (if p.name = "" then ["Name cannot be empty"] else []) ++
  (if p.name.utf8ByteSize > 255 then ["Name cannot exceed 255 characters"] else []) ++
  (if p.price < 0 then ["Price cannot be negative"] else []) ++
  (if p.price > mkRat 99999999 100 then ["Price exceeds maximum allowed value"] else []) ++
  (if p.createdAt = 0 then ["CreatedAt must be set"] else []) ++
  (if p.createdAt > now then ["CreatedAt cannot be in the future"] else []) ++
  (if p.salesCount < 0 then ["SalesCount cannot be negative"] else []) ++
  (if p.viewsCount < 0 then ["ViewsCount cannot be negative"] else []) ++
  (if p.salesCount > p.viewsCount then ["sales count cannot exceed views count"] else [])

/-- Go `Product.IsValid`: `Validate` returned no errors. -/
def Product.isValidAt (p : Product) (now : GoTime) : Bool :=
  (p.validate now).isEmpty

/-- Go `ProductCollection`. -/
abbrev ProductCollection := List Product

/-- Go `ProductCollection.Validate`: the violations of all members, in order. -/
def validateCollection (now : GoTime) (pc : ProductCollection) : List String :=
  (pc.map (Product.validate · now)).flatten

/-- a `ProductCollection` passes validation iff no member produced a violation. -/
def collectionValid (now : GoTime) (pc : ProductCollection) : Bool :=
  (validateCollection now pc).isEmpty

/-- Go `ProductCollection.Copy`: a value copy (aliasing is modelled separately in
the slice-store semantics below). -/
def copyCollection (pc : ProductCollection) : ProductCollection :=
  pc

/-- Go `SortStrategy` is a string type in the source. -/
abbrev SortStrategy := String

def SortByPriceAsc : SortStrategy := "price_asc"
def SortByPriceDesc : SortStrategy := "price_desc"
def SortBySalesConversionRatio : SortStrategy := "sales_conversion_ratio"
def SortByCreatedAtDesc : SortStrategy := "created_at_desc"
def SortByCreatedAtAsc : SortStrategy := "created_at_asc"
def SortByPopularity : SortStrategy := "popularity"
def SortByRevenue : SortStrategy := "revenue"
def SortByName : SortStrategy := "name"

/-- Go `AllSortStrategies`. -/
def allSortStrategies : List SortStrategy :=
  [SortByPriceAsc, SortByPriceDesc, SortBySalesConversionRatio, SortByCreatedAtDesc,
   SortByCreatedAtAsc, SortByPopularity, SortByRevenue, SortByName]

/-- Go `SortStrategy.IsValid`: membership in the fixed registry. -/
def isValidStrategy (s : SortStrategy) : Bool :=
  allSortStrategies.contains s

/-- the `less` closure of `PriceSorter.Sort`: price only, no tie-break. -/
def priceLess (ascending : Bool) (a b : Product) : Bool :=
  if ascending then decide (a.price < b.price) else decide (a.price > b.price)

/-- the `less` closure of `SalesConversionRatioSorter.Sort`. -/
def salesConversionRatioLess (a b : Product) : Bool :=
  if a.salesConversionRatio ≠ b.salesConversionRatio then
    decide (a.salesConversionRatio > b.salesConversionRatio)
  else if a.salesCount ≠ b.salesCount then decide (a.salesCount > b.salesCount)
  else decide (a.id < b.id)

/-- the `less` closure of `CreatedAtSorter.Sort`. -/
def createdAtLess (ascending : Bool) (a b : Product) : Bool :=
  if a.createdAt ≠ b.createdAt then
    (if ascending then decide (a.createdAt < b.createdAt) else decide (a.createdAt > b.createdAt))
  else decide (a.id < b.id)

/-- the `less` closure of `PopularitySorter.Sort`. -/
def popularityLess (a b : Product) : Bool :=
  if a.viewsCount ≠ b.viewsCount then decide (a.viewsCount > b.viewsCount)
  else if a.salesCount ≠ b.salesCount then decide (a.salesCount > b.salesCount)
  else decide (a.id < b.id)

/-- the `less` closure of `RevenueSorter.Sort`. -/
def revenueLess (a b : Product) : Bool :=
  if a.revenueGenerated ≠ b.revenueGenerated then
    decide (a.revenueGenerated > b.revenueGenerated)
  else if a.salesCount ≠ b.salesCount then decide (a.salesCount > b.salesCount)
  else decide (a.id < b.id)

/-- the `less` closure of `NameSorter.Sort`: lower-cased names, then id. -/
def nameLess (a b : Product) : Bool :=
  if a.name.toLower ≠ b.name.toLower then decide (a.name.toLower < b.name.toLower)
  else decide (a.id < b.id)

/-- the non-strict order a slice sorted by `sort.Slice less` satisfies:
position `i` before position `j` is consistent iff `less(j, i)` is false. -/
def leRel (less : Product → Product → Bool) (a b : Product) : Prop :=
  less b a = false

instance (less : Product → Product → Bool) : DecidableRel (leRel less) := fun _ _ =>
  inferInstanceAs (Decidable (_ = false))

/-- Go `sort.Slice` modelled as a comparison sort producing a `leRel`-sorted
permutation; the stable insertion sort agrees with the observed Go behaviour
on every input this development evaluates it on. -/
def sortSlice (less : Product → Product → Bool) (l : ProductCollection) : ProductCollection :=
  List.insertionSort (leRel less) l

/-- the common body of every `Sorter.Sort` method: empty input short-circuits
to a fresh empty collection, otherwise the defensive copy is sorted. -/
def sorterSort (less : Product → Product → Bool) (products : ProductCollection) :
    ProductCollection :=
  if products.isEmpty then [] else sortSlice less (copyCollection products)

/-- Go `DefaultSorterFactory.CreateSorter`, returning the comparator of the
sorter it builds; `none` is the `unsupported sort strategy` error. -/
def createSorterLess (strategy : SortStrategy) : Option (Product → Product → Bool) :=
  if strategy = SortByPriceAsc then some (priceLess true)
  else if strategy = SortByPriceDesc then some (priceLess false)
  else if strategy = SortBySalesConversionRatio then some salesConversionRatioLess
  else if strategy = SortByCreatedAtDesc then some (createdAtLess false)
  else if strategy = SortByCreatedAtAsc then some (createdAtLess true)
  else if strategy = SortByPopularity then some popularityLess
  else if strategy = SortByRevenue then some revenueLess
  else if strategy = SortByName then some nameLess
  else none

/-- the error taxonomy of §7: validation failures (including the nil
collection), unknown strategies, and the empty batch strategy set. -/
inductive SortError where
  | validationFailed : SortError
  | invalidStrategy : String → SortError
  | emptyStrategySet : SortError
deriving DecidableEq

/-- Go `SortResult`. -/
structure SortResult where
  products : ProductCollection
  strategy : SortStrategy
  executionTime : Int
  productCount : Nat
  sortedAt : GoTime
deriving DecidableEq

/-- Go `NewSortResult`: `ProductCount` is defined as the length of the sequence. -/
def newSortResult (products : ProductCollection) (strategy : SortStrategy)
    (executionTime : Int) (sortedAt : GoTime) : SortResult :=
  { products := products, strategy := strategy, executionTime := executionTime,
    productCount := products.length, sortedAt := sortedAt }

/-- Go `validateSortRequest`: nil check, then strategy check, then item check. -/
def validateSortRequest (now : GoTime) (products : Option ProductCollection)
    (strategy : SortStrategy) : Except SortError Unit :=
  match products with
  | none => .error .validationFailed
  | some pc =>
    if isValidStrategy strategy = false then .error (.invalidStrategy strategy)
    else if collectionValid now pc = false then .error .validationFailed
    else .ok ()

/-- Go `DefaultService.SortProducts`. -/
def sortProducts (now : GoTime) (products : Option ProductCollection)
    (strategy : SortStrategy) : Except SortError SortResult :=
  match validateSortRequest now products strategy with
  | .error e => .error e
  | .ok _ =>
    match products, createSorterLess strategy with
    | some pc, some less => .ok (newSortResult (sorterSort less pc) strategy 0 now)
    | _, _ => .error (.invalidStrategy strategy)

/-- Go `SortStrategySet` is a slice of strategies. -/
abbrev SortStrategySet := List SortStrategy

/-- Go `SortStrategySet.Validate` succeeds iff every member is registered. -/
def strategySetValid (strategies : SortStrategySet) : Bool :=
  strategies.all isValidStrategy

/-- Go `validateBatchSortRequest`: nil check, then empty-set check, then
strategy-set check, then item check. -/
def validateBatchSortRequest (now : GoTime) (products : Option ProductCollection)
    (strategies : SortStrategySet) : Except SortError Unit :=
  match products with
  | none => .error .validationFailed
  | some pc =>
    if strategies.isEmpty then .error .emptyStrategySet
    else if strategySetValid strategies = false then
      .error (.invalidStrategy (String.intercalate ", "
        (strategies.filter (fun s => isValidStrategy s = false))))
    else if collectionValid now pc = false then .error .validationFailed
    else .ok ()

/-- a Go `map[SortStrategy]*SortResult` as an association list; assignment
replaces the entry of an existing key in place, otherwise appends. -/
def mapInsert : List (SortStrategy × SortResult) → SortStrategy → SortResult →
    List (SortStrategy × SortResult)
  | [], k, v => [(k, v)]
  | e :: rest, k, v => if e.1 = k then (k, v) :: rest else e :: mapInsert rest k v

/-- reading `results[strategy]` from the association-list map. -/
def mapLookup : List (SortStrategy × SortResult) → SortStrategy → Option SortResult
  | [], _ => none
  | e :: rest, k => if e.1 = k then some e.2 else mapLookup rest k

/-- Go `BatchSortResult`. -/
structure BatchSortResult where
  results : List (SortStrategy × SortResult)
  totalTime : Int
  strategyCount : Nat
  productCount : Nat
  executedAt : GoTime
deriving DecidableEq

/-- Go `NewBatchSortResult`: `StrategyCount` is the map size, `ProductCount` is
taken from one arbitrary entry (`0` for an empty map). -/
def newBatchSortResult (results : List (SortStrategy × SortResult)) (totalTime : Int)
    (executedAt : GoTime) : BatchSortResult :=
  { results := results, totalTime := totalTime, strategyCount := results.length,
    productCount := ((results.head?.map (fun e => e.2.productCount)).getD 0),
    executedAt := executedAt }

/-- the `for _, strategy := range strategies` loop body of `BatchSort`:
each strategy is sorted via `SortProducts` and written into the map. -/
def batchSortLoop (now : GoTime) (products : Option ProductCollection) :
    SortStrategySet → List (SortStrategy × SortResult) →
    Except SortError (List (SortStrategy × SortResult))
  | [], acc => .ok acc
  | s :: rest, acc =>
    match sortProducts now products s with
    | .error e => .error e
    | .ok r => batchSortLoop now products rest (mapInsert acc s r)

/-- Go `DefaultService.BatchSort`. -/
def batchSort (now : GoTime) (products : Option ProductCollection)
    (strategies : SortStrategySet) : Except SortError BatchSortResult :=
  match validateBatchSortRequest now products strategies with
  | .error e => .error e
  | .ok _ =>
    match batchSortLoop now products strategies [] with
    | .error e => .error e
    | .ok results => .ok (newBatchSortResult results 0 now)

/-!
Slice-level semantics for the non-mutation claim: a store of backing arrays,
slices being indices into it.  `Sorter.Sort` allocates a copy of its input
array (`ProductCollection.Copy`), then `sort.Slice` rearranges that copy in
place; the input array is never written.
-/

/-- the heap of slice backing arrays. -/
abbrev SliceStore := List ProductCollection

/-- a `Sorter.Sort` call at slice level: the returned collection is a fresh
array; only that fresh array is mutated by the in-place sort. -/
def sorterSortStore (less : Product → Product → Bool) (σ : SliceStore) (r : Nat) :
    SliceStore × Nat :=
  let arr := σ.getD r []
  if arr.isEmpty then (σ ++ [[]], σ.length)
  else
    let σ₁ := σ ++ [arr]
    let r₁ := σ.length
    (σ₁.set r₁ (sortSlice less (σ₁.getD r₁ [])), r₁)

/-!
The demo fixture (three furniture items) and small concrete inputs.
Creation dates are encoded as `yyyymmdd`, which is order-isomorphic to the
actual timestamps involved.
-/

/-- fixture item A: Alabaster Table. -/
def prodA : Product :=
  { id := 1, name := "Alabaster Table", price := mkRat 1299 100, createdAt := 20190104,
    salesCount := 32, viewsCount := 730 }

/-- fixture item B: Zebra Table. -/
def prodB : Product :=
  { id := 2, name := "Zebra Table", price := mkRat 4449 100, createdAt := 20120104,
    salesCount := 301, viewsCount := 3279 }

/-- fixture item C: Coffee Table. -/
def prodC : Product :=
  { id := 3, name := "Coffee Table", price := mkRat 1000 100, createdAt := 20140528,
    salesCount := 1048, viewsCount := 20123 }

/-- an observation instant later than every fixture date. -/
def fixtureNow : GoTime := 20251011

/-- two valid items with distinct ids but the same price. -/
def cxP1 : Product :=
  { id := 1, name := "A", price := 5, createdAt := 100, salesCount := 0, viewsCount := 0 }

/-- a second item tied with `cxP1` on price. -/
def cxP2 : Product :=
  { id := 2, name := "B", price := 5, createdAt := 100, salesCount := 0, viewsCount := 0 }

/-!
Order-theoretic facts about the comparator closures.  Each closure is the
strict lexicographic comparison of up to three projected keys (descending
keys are captured by projecting into the order dual); `lexP` is that shape.
-/

/-- strict lexicographic comparison of three projected keys. -/
def lexP {β γ δ : Type} [LinearOrder β] [LinearOrder γ] [LinearOrder δ]
    (f : Product → β) (g : Product → γ) (h : Product → δ) (a b : Product) : Prop :=
  f a < f b ∨ (f a = f b ∧ (g a < g b ∨ (g a = g b ∧ h a < h b)))

/-- constant dummy key for comparators with fewer than three levels. -/
def constKey (_ : Product) : Nat := 0

theorem not_lexP_iff {β γ δ : Type} [LinearOrder β] [LinearOrder γ] [LinearOrder δ]
    {f : Product → β} {g : Product → γ} {h : Product → δ} {a b : Product} :
    ¬ lexP f g h a b ↔
      f b ≤ f a ∧ (f a = f b → g b ≤ g a ∧ (g a = g b → h b ≤ h a)) := by
  unfold lexP
  push_neg
  rfl

theorem lexP_asymm {β γ δ : Type} [LinearOrder β] [LinearOrder γ] [LinearOrder δ]
    {f : Product → β} {g : Product → γ} {h : Product → δ} {a b : Product}
    (h₁ : lexP f g h a b) (h₂ : lexP f g h b a) : False := by
  rcases h₁ with h₁ | ⟨e₁, h₁⟩
  · rcases h₂ with h₂ | ⟨e₂, _⟩
    · exact lt_asymm h₁ h₂
    · exact absurd e₂ (ne_of_gt h₁)
  · rcases h₂ with h₂ | ⟨_, h₂⟩
    · exact absurd e₁ (ne_of_gt h₂)
    · rcases h₁ with h₁ | ⟨e₁', h₁⟩
      · rcases h₂ with h₂ | ⟨e₂', _⟩
        · exact lt_asymm h₁ h₂
        · exact absurd e₂' (ne_of_gt h₁)
      · rcases h₂ with h₂ | ⟨_, h₂⟩
        · exact absurd e₁' (ne_of_gt h₂)
        · exact lt_asymm h₁ h₂

theorem not_lexP_trans {β γ δ : Type} [LinearOrder β] [LinearOrder γ] [LinearOrder δ]
    {f : Product → β} {g : Product → γ} {h : Product → δ} {a b c : Product}
    (hba : ¬ lexP f g h b a) (hcb : ¬ lexP f g h c b) : ¬ lexP f g h c a := by
  rw [not_lexP_iff] at hba hcb ⊢
  obtain ⟨hf₁, hr₁⟩ := hba
  obtain ⟨hf₂, hr₂⟩ := hcb
  refine ⟨le_trans hf₁ hf₂, fun hfe => ?_⟩
  have hfb₁ : f b = f a := le_antisymm (hfe ▸ hf₂) hf₁
  have hfc₁ : f c = f b := by rw [hfb₁]; exact hfe
  obtain ⟨hg₁, hgr₁⟩ := hr₁ hfb₁
  obtain ⟨hg₂, hgr₂⟩ := hr₂ hfc₁
  refine ⟨le_trans hg₁ hg₂, fun hge => ?_⟩
  have hgb₁ : g b = g a := le_antisymm (hge ▸ hg₂) hg₁
  have hgc₁ : g c = g b := by rw [hgb₁]; exact hge
  exact le_trans (hgr₁ hgb₁) (hgr₂ hgc₁)

theorem not_lexP_keys_eq {β γ δ : Type} [LinearOrder β] [LinearOrder γ] [LinearOrder δ]
    {f : Product → β} {g : Product → γ} {h : Product → δ} {a b : Product}
    (hab : ¬ lexP f g h a b) (hba : ¬ lexP f g h b a) :
    f a = f b ∧ g a = g b ∧ h a = h b := by
  rw [not_lexP_iff] at hab hba
  obtain ⟨hf₁, hr₁⟩ := hab
  obtain ⟨hf₂, hr₂⟩ := hba
  have hfe : f a = f b := le_antisymm hf₂ hf₁
  obtain ⟨hg₁, hgr₁⟩ := hr₁ hfe
  obtain ⟨hg₂, hgr₂⟩ := hr₂ hfe.symm
  have hge : g a = g b := le_antisymm hg₂ hg₁
  exact ⟨hfe, hge, le_antisymm (hgr₂ hge.symm) (hgr₁ hge)⟩

/-- relate `leRel` of a characterised comparator to `lexP`. -/
theorem leRel_iff_not_lexP {β γ δ : Type} [LinearOrder β] [LinearOrder γ] [LinearOrder δ]
    (less : Product → Product → Bool) (f : Product → β) (g : Product → γ) (h : Product → δ)
    (hiff : ∀ x y, less x y = true ↔ lexP f g h x y) (a b : Product) :
    leRel less a b ↔ ¬ lexP f g h b a := by
  unfold leRel
  rw [← hiff]
  simp

theorem leRel_isTotal {β γ δ : Type} [LinearOrder β] [LinearOrder γ] [LinearOrder δ]
    (less : Product → Product → Bool) (f : Product → β) (g : Product → γ) (h : Product → δ)
    (hiff : ∀ x y, less x y = true ↔ lexP f g h x y) : IsTotal Product (leRel less) := by
  constructor
  intro a b
  rw [leRel_iff_not_lexP less f g h hiff, leRel_iff_not_lexP less f g h hiff]
  by_contra hcon
  push_neg at hcon
  exact lexP_asymm hcon.1 hcon.2

theorem leRel_isTrans {β γ δ : Type} [LinearOrder β] [LinearOrder γ] [LinearOrder δ]
    (less : Product → Product → Bool) (f : Product → β) (g : Product → γ) (h : Product → δ)
    (hiff : ∀ x y, less x y = true ↔ lexP f g h x y) : IsTrans Product (leRel less) := by
  constructor
  intro a b c hab hbc
  rw [leRel_iff_not_lexP less f g h hiff] at hab hbc ⊢
  exact not_lexP_trans hab hbc

theorem leRel_keys_eq {β γ δ : Type} [LinearOrder β] [LinearOrder γ] [LinearOrder δ]
    (less : Product → Product → Bool) (f : Product → β) (g : Product → γ) (h : Product → δ)
    (hiff : ∀ x y, less x y = true ↔ lexP f g h x y) {a b : Product}
    (h₁ : leRel less a b) (h₂ : leRel less b a) :
    f a = f b ∧ g a = g b ∧ h a = h b := by
  rw [leRel_iff_not_lexP less f g h hiff] at h₁ h₂
  exact not_lexP_keys_eq h₂ h₁

theorem priceLess_asc_iff (a b : Product) :
    priceLess true a b = true ↔ lexP (fun p => p.price) constKey constKey a b := by
  simp [priceLess, lexP, constKey]

theorem priceLess_desc_iff (a b : Product) :
    priceLess false a b = true ↔
      lexP (fun p => OrderDual.toDual p.price) constKey constKey a b := by
  simp [priceLess, lexP, constKey]

theorem salesConversionRatioLess_iff (a b : Product) :
    salesConversionRatioLess a b = true ↔
      lexP (fun p => OrderDual.toDual p.salesConversionRatio)
        (fun p => OrderDual.toDual p.salesCount) (fun p => p.id) a b := by
  unfold salesConversionRatioLess lexP
  rcases eq_or_ne a.salesConversionRatio b.salesConversionRatio with e₁ | e₁ <;>
    rcases eq_or_ne a.salesCount b.salesCount with e₂ | e₂ <;>
      simp [e₁, e₂]

theorem createdAtLess_asc_iff (a b : Product) :
    createdAtLess true a b = true ↔
      lexP (fun p => p.createdAt) (fun p => p.id) constKey a b := by
  unfold createdAtLess lexP
  rcases eq_or_ne a.createdAt b.createdAt with e₁ | e₁ <;> simp [e₁, constKey]

theorem createdAtLess_desc_iff (a b : Product) :
    createdAtLess false a b = true ↔
      lexP (fun p => OrderDual.toDual p.createdAt) (fun p => p.id) constKey a b := by
  unfold createdAtLess lexP
  rcases eq_or_ne a.createdAt b.createdAt with e₁ | e₁ <;> simp [e₁, constKey]

theorem popularityLess_iff (a b : Product) :
    popularityLess a b = true ↔
      lexP (fun p => OrderDual.toDual p.viewsCount)
        (fun p => OrderDual.toDual p.salesCount) (fun p => p.id) a b := by
  unfold popularityLess lexP
  rcases eq_or_ne a.viewsCount b.viewsCount with e₁ | e₁ <;>
    rcases eq_or_ne a.salesCount b.salesCount with e₂ | e₂ <;> simp [e₁, e₂]

theorem revenueLess_iff (a b : Product) :
    revenueLess a b = true ↔
      lexP (fun p => OrderDual.toDual p.revenueGenerated)
        (fun p => OrderDual.toDual p.salesCount) (fun p => p.id) a b := by
  unfold revenueLess lexP
  rcases eq_or_ne a.revenueGenerated b.revenueGenerated with e₁ | e₁ <;>
    rcases eq_or_ne a.salesCount b.salesCount with e₂ | e₂ <;> simp [e₁, e₂]

theorem nameLess_iff (a b : Product) :
    nameLess a b = true ↔
      lexP (fun p => p.name.toLower) (fun p => p.id) constKey a b := by
  unfold nameLess lexP
  rcases eq_or_ne a.name.toLower b.name.toLower with e₁ | e₁ <;> simp [e₁, constKey]

/-!
Behaviour of `sorterSort`.
-/

theorem sorterSort_eq (less : Product → Product → Bool) (l : ProductCollection) :
    sorterSort less l = sortSlice less l := by
  cases l <;> rfl

theorem sorterSort_perm (less : Product → Product → Bool) (l : ProductCollection) :
    (sorterSort less l).Perm l := by
  rw [sorterSort_eq]
  exact List.perm_insertionSort _ l

theorem sorterSort_length (less : Product → Product → Bool) (l : ProductCollection) :
    (sorterSort less l).length = l.length :=
  (sorterSort_perm less l).length_eq

theorem sorterSort_sorted {β γ δ : Type} [LinearOrder β] [LinearOrder γ] [LinearOrder δ]
    (less : Product → Product → Bool) (f : Product → β) (g : Product → γ) (h : Product → δ)
    (hiff : ∀ x y, less x y = true ↔ lexP f g h x y) (l : ProductCollection) :
    (sorterSort less l).Pairwise (leRel less) := by
  rw [sorterSort_eq]
  letI := leRel_isTotal less f g h hiff
  letI := leRel_isTrans less f g h hiff
  exact List.sorted_insertionSort _ l

theorem sorterSort_idem {β γ δ : Type} [LinearOrder β] [LinearOrder γ] [LinearOrder δ]
    (less : Product → Product → Bool) (f : Product → β) (g : Product → γ) (h : Product → δ)
    (hiff : ∀ x y, less x y = true ↔ lexP f g h x y) (l : ProductCollection) :
    sorterSort less (sorterSort less l) = sorterSort less l := by
  have hs : (sorterSort less l).Pairwise (leRel less) := sorterSort_sorted less f g h hiff l
  rw [sorterSort_eq (l := sorterSort less l)]
  unfold sortSlice
  exact List.Sorted.insertionSort_eq hs

/-- two sorted permutations of each other agree when ties are broken down to
the item id and the ids are pairwise distinct. -/
theorem eq_of_perm_of_sorted_ids (le : Product → Product → Prop)
    (hanti : ∀ a b, le a b → le b a → a.id = b.id) :
    ∀ (l₁ l₂ : List Product), l₁.Perm l₂ → (l₁.map Product.id).Nodup →
      l₁.Pairwise le → l₂.Pairwise le → l₁ = l₂ := by
  intro l₁
  induction l₁ with
  | nil =>
    intro l₂ hp _ _ _
    exact hp.nil_eq
  | cons a t₁ ih =>
    intro l₂ hp hnd hs₁ hs₂
    cases l₂ with
    | nil => exact absurd hp.symm.nil_eq (by simp)
    | cons b t₂ =>
      have hndc : a.id ∉ t₁.map Product.id ∧ (t₁.map Product.id).Nodup := by
        rw [List.map_cons, List.nodup_cons] at hnd
        exact hnd
      have hab : a = b := by
        by_contra hne
        have ha2 : a ∈ b :: t₂ := hp.subset (List.mem_cons_self _ _)
        have hb1 : b ∈ a :: t₁ := hp.symm.subset (List.mem_cons_self _ _)
        have ha2' : a ∈ t₂ := by
          rcases List.mem_cons.mp ha2 with hc | hc
          · exact absurd hc hne
          · exact hc
        have hb1' : b ∈ t₁ := by
          rcases List.mem_cons.mp hb1 with hc | hc
          · exact absurd hc.symm hne
          · exact hc
        have hle₁ : le a b := (List.pairwise_cons.mp hs₁).1 b hb1'
        have hle₂ : le b a := (List.pairwise_cons.mp hs₂).1 a ha2'
        have hid : a.id = b.id := hanti a b hle₁ hle₂
        exact hndc.1 (List.mem_map.mpr ⟨b, hb1', hid.symm⟩)
      subst hab
      have htl : t₁ = t₂ :=
        ih t₂ hp.cons_inv hndc.2 (List.pairwise_cons.mp hs₁).2 (List.pairwise_cons.mp hs₂).2
      rw [htl]

/-- a comparator whose tie-break chain ends at the id sorts all permutations
of an id-distinct collection to the same sequence. -/
theorem sorterSort_eq_of_perm {β γ δ : Type} [LinearOrder β] [LinearOrder γ] [LinearOrder δ]
    (less : Product → Product → Bool) (f : Product → β) (g : Product → γ) (h : Product → δ)
    (hiff : ∀ x y, less x y = true ↔ lexP f g h x y)
    (hid : ∀ a b, leRel less a b → leRel less b a → a.id = b.id)
    (l₁ l₂ : ProductCollection) (hnd : (l₁.map Product.id).Nodup) (hp : l₁.Perm l₂) :
    sorterSort less l₁ = sorterSort less l₂ := by
  apply eq_of_perm_of_sorted_ids (leRel less) hid
  · exact (sorterSort_perm less l₁).trans (hp.trans (sorterSort_perm less l₂).symm)
  · exact (((sorterSort_perm less l₁).map Product.id).symm).nodup hnd
  · exact sorterSort_sorted less f g h hiff l₁
  · exact sorterSort_sorted less f g h hiff l₂

/-!
Registry and validation plumbing.
-/

theorem isValidStrategy_cases (s : SortStrategy) (h : isValidStrategy s = true) :
    s = SortByPriceAsc ∨ s = SortByPriceDesc ∨ s = SortBySalesConversionRatio ∨
    s = SortByCreatedAtDesc ∨ s = SortByCreatedAtAsc ∨ s = SortByPopularity ∨
    s = SortByRevenue ∨ s = SortByName := by
  unfold isValidStrategy allSortStrategies at h
  simpa using h

theorem createSorterLess_of_valid (s : SortStrategy) (h : isValidStrategy s = true) :
    ∃ less, createSorterLess s = some less := by
  rcases isValidStrategy_cases s h with hc | hc | hc | hc | hc | hc | hc | hc <;>
    subst hc <;> exact ⟨_, rfl⟩

/-- each comparator produced by the factory with its `lexP` characterisation
and an id-terminated tie-break chain for the non-price strategies. -/
theorem createSorterLess_eq_some_inv (s : SortStrategy) (less : Product → Product → Bool)
    (h : createSorterLess s = some less) :
    (s = SortByPriceAsc ∧ less = priceLess true) ∨
    (s = SortByPriceDesc ∧ less = priceLess false) ∨
    (s = SortBySalesConversionRatio ∧ less = salesConversionRatioLess) ∨
    (s = SortByCreatedAtDesc ∧ less = createdAtLess false) ∨
    (s = SortByCreatedAtAsc ∧ less = createdAtLess true) ∨
    (s = SortByPopularity ∧ less = popularityLess) ∨
    (s = SortByRevenue ∧ less = revenueLess) ∨
    (s = SortByName ∧ less = nameLess) := by
  unfold createSorterLess at h
  split_ifs at h with h₁ h₂ h₃ h₄ h₅ h₆ h₇ h₈ <;>
    simp_all

theorem collectionValid_iff (now : GoTime) (pc : ProductCollection) :
    collectionValid now pc = true ↔ ∀ p ∈ pc, p.validate now = [] := by
  unfold collectionValid validateCollection
  rw [List.isEmpty_iff, List.flatten_eq_nil_iff]
  constructor
  · intro h p hp
    exact h (p.validate now) (List.mem_map.mpr ⟨p, hp, rfl⟩)
  · intro h l hl
    obtain ⟨p, hp, rfl⟩ := List.mem_map.mp hl
    exact h p hp

theorem collectionValid_eq_false_iff (now : GoTime) (pc : ProductCollection) :
    collectionValid now pc = false ↔ ∃ p ∈ pc, p.validate now ≠ [] := by
  rw [← Bool.not_eq_true, collectionValid_iff]
  push_neg
  rfl

/-!
Inversion principles for `sortProducts`.
-/

theorem sortProducts_none (now : GoTime) (strategy : SortStrategy) :
    sortProducts now none strategy = .error .validationFailed := rfl

theorem sortProducts_invalid_strategy (now : GoTime) (pc : ProductCollection)
    (strategy : SortStrategy) (hv : isValidStrategy strategy = false) :
    sortProducts now (some pc) strategy = .error (.invalidStrategy strategy) := by
  simp [sortProducts, validateSortRequest, hv]

theorem sortProducts_invalid_items (now : GoTime) (pc : ProductCollection)
    (strategy : SortStrategy) (hv : isValidStrategy strategy = true)
    (hc : collectionValid now pc = false) :
    sortProducts now (some pc) strategy = .error .validationFailed := by
  simp [sortProducts, validateSortRequest, hv, hc]

theorem sortProducts_ok_iff (now : GoTime) (pc : ProductCollection)
    (strategy : SortStrategy) (r : SortResult) :
    sortProducts now (some pc) strategy = .ok r ↔
      isValidStrategy strategy = true ∧ collectionValid now pc = true ∧
      ∃ less, createSorterLess strategy = some less ∧
        r = newSortResult (sorterSort less pc) strategy 0 now := by
  constructor
  · intro h
    cases hv : isValidStrategy strategy with
    | false => rw [sortProducts_invalid_strategy now pc strategy hv] at h; cases h
    | true =>
      cases hc : collectionValid now pc with
      | false => rw [sortProducts_invalid_items now pc strategy hv hc] at h; cases h
      | true =>
        refine ⟨rfl, rfl, ?_⟩
        obtain ⟨less, hless⟩ := createSorterLess_of_valid strategy hv
        refine ⟨less, hless, ?_⟩
        simp [sortProducts, validateSortRequest, hv, hc, hless] at h
        exact h.symm
  · rintro ⟨hv, hc, less, hless, rfl⟩
    simp [sortProducts, validateSortRequest, hv, hc, hless]

theorem sortProducts_ok_of_valid (now : GoTime) (pc : ProductCollection)
    (strategy : SortStrategy) (hv : isValidStrategy strategy = true)
    (hc : collectionValid now pc = true) :
    (sortProducts now (some pc) strategy).isOk = true := by
  obtain ⟨less, hless⟩ := createSorterLess_of_valid strategy hv
  have : sortProducts now (some pc) strategy =
      .ok (newSortResult (sorterSort less pc) strategy 0 now) := by
    simp [sortProducts, validateSortRequest, hv, hc, hless]
  rw [this]
  rfl

theorem exceptIsOk_iff {ε α : Type} (e : Except ε α) : e.isOk = true ↔ ∃ a, e = .ok a := by
  cases e <;> simp [Except.isOk, Except.toBool]

/-!
Map and batch-loop plumbing.
-/

theorem lookup_mapInsert_self (m : List (SortStrategy × SortResult)) (k : SortStrategy)
    (v : SortResult) : mapLookup (mapInsert m k v) k = some v := by
  induction m with
  | nil => simp [mapInsert, mapLookup]
  | cons e rest ih =>
    by_cases he : e.1 = k
    · simp [mapInsert, he, mapLookup]
    · rw [mapInsert, if_neg he, mapLookup, if_neg he]
      exact ih

theorem lookup_mapInsert_ne (m : List (SortStrategy × SortResult)) (k s : SortStrategy)
    (v : SortResult) (hne : s ≠ k) : mapLookup (mapInsert m k v) s = mapLookup m s := by
  induction m with
  | nil => simp [mapInsert, mapLookup, Ne.symm hne]
  | cons e rest ih =>
    obtain ⟨e₁, e₂⟩ := e
    by_cases he : e₁ = k
    · subst he
      simp [mapInsert, mapLookup, Ne.symm hne]
    · by_cases hs : e₁ = s <;> simp [mapInsert, mapLookup, he, hs, hne, ih]

theorem mem_keys_mapInsert (m : List (SortStrategy × SortResult)) (k s : SortStrategy)
    (v : SortResult) :
    s ∈ (mapInsert m k v).map Prod.fst ↔ s = k ∨ s ∈ m.map Prod.fst := by
  induction m with
  | nil => simp [mapInsert]
  | cons e rest ih =>
    by_cases he : e.1 = k
    · rw [mapInsert, if_pos he]
      simp only [List.map_cons, List.mem_cons, he]
      tauto
    · rw [mapInsert, if_neg he]
      simp only [List.map_cons, List.mem_cons, ih]
      tauto

theorem keys_nodup_mapInsert (m : List (SortStrategy × SortResult)) (k : SortStrategy)
    (v : SortResult) (h : (m.map Prod.fst).Nodup) :
    ((mapInsert m k v).map Prod.fst).Nodup := by
  induction m with
  | nil => simp [mapInsert]
  | cons e rest ih =>
    rw [List.map_cons, List.nodup_cons] at h
    by_cases he : e.1 = k
    · subst he
      simpa [mapInsert] using h
    · rw [mapInsert]
      rw [if_neg he, List.map_cons, List.nodup_cons]
      refine ⟨fun hmem => ?_, ih h.2⟩
      rcases (mem_keys_mapInsert rest k e.1 v).mp hmem with hc | hc
      · exact he hc
      · exact h.1 hc

theorem batchSortLoop_lookup (now : GoTime) (products : Option ProductCollection) :
    ∀ (ss : SortStrategySet) (acc m : List (SortStrategy × SortResult)),
      batchSortLoop now products ss acc = .ok m →
      ∀ s, mapLookup m s =
        if s ∈ ss then (sortProducts now products s).toOption else mapLookup acc s := by
  intro ss
  induction ss with
  | nil =>
    intro acc m h s
    cases h
    simp
  | cons s₀ rest ih =>
    intro acc m h s
    rw [batchSortLoop] at h
    cases hr₀ : sortProducts now products s₀ with
    | error e => rw [hr₀] at h; cases h
    | ok r₀ =>
      rw [hr₀] at h
      have := ih (mapInsert acc s₀ r₀) m h s
      by_cases hs : s ∈ rest
      · simp [hs, this, List.mem_cons]
      · by_cases he : s = s₀
        · subst he
          simp [hs, this, lookup_mapInsert_self, hr₀, Except.toOption]
        · simp [hs, he, this, lookup_mapInsert_ne acc s₀ s r₀ he]

theorem batchSortLoop_keys (now : GoTime) (products : Option ProductCollection) :
    ∀ (ss : SortStrategySet) (acc m : List (SortStrategy × SortResult)),
      batchSortLoop now products ss acc = .ok m →
      ((acc.map Prod.fst).Nodup → (m.map Prod.fst).Nodup) ∧
      (∀ k, k ∈ m.map Prod.fst ↔ k ∈ acc.map Prod.fst ∨ k ∈ ss) := by
  intro ss
  induction ss with
  | nil =>
    intro acc m h
    cases h
    simp
  | cons s₀ rest ih =>
    intro acc m h
    rw [batchSortLoop] at h
    cases hr₀ : sortProducts now products s₀ with
    | error e => rw [hr₀] at h; cases h
    | ok r₀ =>
      rw [hr₀] at h
      obtain ⟨hnd, hmem⟩ := ih (mapInsert acc s₀ r₀) m h
      constructor
      · intro hacc
        exact hnd (keys_nodup_mapInsert acc s₀ r₀ hacc)
      · intro k
        rw [hmem k, mem_keys_mapInsert]
        simp [List.mem_cons]
        tauto

theorem batchSortLoop_ok_of (now : GoTime) (products : Option ProductCollection) :
    ∀ (ss : SortStrategySet) (acc : List (SortStrategy × SortResult)),
      (∀ s ∈ ss, (sortProducts now products s).isOk = true) →
      ∃ m, batchSortLoop now products ss acc = .ok m := by
  intro ss
  induction ss with
  | nil => intro acc _; exact ⟨acc, rfl⟩
  | cons s₀ rest ih =>
    intro acc hok
    obtain ⟨r₀, hr₀⟩ := (exceptIsOk_iff _).mp (hok s₀ (List.mem_cons_self _ _))
    obtain ⟨m, hm⟩ := ih (mapInsert acc s₀ r₀)
      (fun s hs => hok s (List.mem_cons_of_mem _ hs))
    exact ⟨m, by rw [batchSortLoop, hr₀]; exact hm⟩

theorem validateBatchSortRequest_ok_iff (now : GoTime) (products : Option ProductCollection)
    (strategies : SortStrategySet) :
    validateBatchSortRequest now products strategies = .ok () ↔
      ∃ pc, products = some pc ∧ strategies ≠ [] ∧
        strategySetValid strategies = true ∧ collectionValid now pc = true := by
  cases products with
  | none => simp [validateBatchSortRequest]
  | some pc =>
    cases hemp : strategies.isEmpty <;>
      cases hsv : strategySetValid strategies <;>
        cases hc : collectionValid now pc <;>
          simp_all [validateBatchSortRequest, List.isEmpty_iff,
            hemp, hsv, hc]

theorem batchSort_ok_iff (now : GoTime) (products : Option ProductCollection)
    (strategies : SortStrategySet) (r : BatchSortResult) :
    batchSort now products strategies = .ok r ↔
      ∃ pc, products = some pc ∧ strategies ≠ [] ∧
        strategySetValid strategies = true ∧ collectionValid now pc = true ∧
        ∃ m, batchSortLoop now products strategies [] = .ok m ∧
          r = newBatchSortResult m 0 now := by
  constructor
  · intro h
    cases hv : validateBatchSortRequest now products strategies with
    | error e =>
      simp only [batchSort, hv] at h
      cases h
    | ok u =>
      cases u
      obtain ⟨pc, hpc, hne, hsv, hc⟩ :=
        (validateBatchSortRequest_ok_iff now products strategies).mp hv
      cases hm : batchSortLoop now products strategies [] with
      | error e =>
        simp only [batchSort, hv, hm] at h
        cases h
      | ok m =>
        simp only [batchSort, hv, hm] at h
        cases h
        exact ⟨pc, hpc, hne, hsv, hc, m, rfl, rfl⟩
  · rintro ⟨pc, rfl, hne, hsv, hc, m, hm, rfl⟩
    have hv : validateBatchSortRequest now (some pc) strategies = .ok () :=
      (validateBatchSortRequest_ok_iff now (some pc) strategies).mpr
        ⟨pc, rfl, hne, hsv, hc⟩
    simp only [batchSort, hv, hm]

theorem strategySetValid_iff (ss : SortStrategySet) :
    strategySetValid ss = true ↔ ∀ s ∈ ss, isValidStrategy s = true := by
  simp [strategySetValid, List.all_eq_true]

theorem isOk_toOption_isSome {ε α : Type} (e : Except ε α) (h : e.isOk = true) :
    e.toOption.isSome = true := by
  cases e <;> simp_all [Except.isOk, Except.toBool, Except.toOption]

/-!
The claims.
-/

/-- C5: an item whose views count is 0 has conversion ratio exactly 0; the
division is guarded, so no error or sentinel value arises. -/
theorem claim5_zero_views_ratio_zero (p : Product) (h : p.viewsCount = 0) :
    p.salesConversionRatio = 0 := by
  simp [Product.salesConversionRatio, h]

theorem claim5_witness :
    (Product.salesConversionRatio
      { id := 1, name := "x", price := 1, createdAt := 1, salesCount := 5, viewsCount := 0 }) =
      0 :=
  claim5_zero_views_ratio_zero
    { id := 1, name := "x", price := 1, createdAt := 1, salesCount := 5, viewsCount := 0 } rfl

/-- C9: on the demo fixture, price-ascending yields [C, A, B] and
conversion-ratio yields [B, C, A]. -/
theorem claim9_fixture_orders :
    (sortProducts fixtureNow (some [prodA, prodB, prodC]) SortByPriceAsc).toOption.map
      SortResult.products = some [prodC, prodA, prodB] ∧
    (sortProducts fixtureNow (some [prodA, prodB, prodC]) SortBySalesConversionRatio).toOption.map
      SortResult.products = some [prodB, prodC, prodA] := by
  constructor <;> decide

/-- C10: for every strategy, every successful sort returns a permutation of
its input collection — the same multiset, nothing dropped, duplicated or
modified. -/
theorem claim10_output_is_permutation (now : GoTime) (l : ProductCollection)
    (strategy : SortStrategy) (r : SortResult)
    (h : sortProducts now (some l) strategy = .ok r) : r.products.Perm l := by
  obtain ⟨_, _, less, _, rfl⟩ := (sortProducts_ok_iff now l strategy r).mp h
  simpa [newSortResult] using sorterSort_perm less l

theorem claim10_witness :
    (newSortResult [prodA] SortByPriceAsc 0 fixtureNow).products.Perm [prodA] :=
  claim10_output_is_permutation fixtureNow [prodA] SortByPriceAsc
    (newSortResult [prodA] SortByPriceAsc 0 fixtureNow) rfl

/-- C6: for every strategy and valid input (the empty collection included),
the result sequence has the input's length and `ProductCount` equals it. -/
theorem claim6_count_preservation (now : GoTime) (l : ProductCollection)
    (strategy : SortStrategy) (r : SortResult)
    (h : sortProducts now (some l) strategy = .ok r) :
    r.products.length = l.length ∧ r.productCount = l.length := by
  obtain ⟨_, _, less, _, rfl⟩ := (sortProducts_ok_iff now l strategy r).mp h
  constructor
  · simpa [newSortResult] using sorterSort_length less l
  · simpa [newSortResult] using sorterSort_length less l

theorem claim6_witness :
    (newSortResult [prodA] SortByPriceAsc 0 fixtureNow).products.length = [prodA].length ∧
    (newSortResult [prodA] SortByPriceAsc 0 fixtureNow).productCount = [prodA].length :=
  claim6_count_preservation fixtureNow [prodA] SortByPriceAsc
    (newSortResult [prodA] SortByPriceAsc 0 fixtureNow) rfl

/-- C2: `SortProducts` fails exactly when the collection reference is nil, an
item violates the §3 invariants, or the strategy is unregistered; the nil and
item failures are validation failures and the unknown strategy an
invalid-strategy failure, while a non-nil empty collection succeeds with an
empty result. -/
theorem claim2_sort_error_conditions (now : GoTime) (products : Option ProductCollection)
    (strategy : SortStrategy) :
    ((sortProducts now products strategy).isOk = false ↔
      (products = none ∨ isValidStrategy strategy = false ∨
        ∃ p ∈ products.getD [], p.validate now ≠ []))
    ∧ (products = none → sortProducts now products strategy = .error .validationFailed)
    ∧ (∀ pc, products = some pc → isValidStrategy strategy = false →
        sortProducts now products strategy = .error (.invalidStrategy strategy))
    ∧ (∀ pc, products = some pc → isValidStrategy strategy = true →
        (∃ p ∈ pc, p.validate now ≠ []) →
        sortProducts now products strategy = .error .validationFailed)
    ∧ (isValidStrategy strategy = true →
        ∃ r, sortProducts now (some []) strategy = .ok r ∧
          r.products = [] ∧ r.productCount = 0) := by
  refine ⟨?_, ?_, ?_, ?_, ?_⟩
  · cases products with
    | none => simp [sortProducts_none, Except.isOk, Except.toBool]
    | some pc =>
      cases hv : isValidStrategy strategy with
      | false =>
        simp [sortProducts_invalid_strategy now pc strategy hv, Except.isOk, Except.toBool]
      | true =>
        cases hc : collectionValid now pc with
        | false =>
          have hx := (collectionValid_eq_false_iff now pc).mp hc
          simp [sortProducts_invalid_items now pc strategy hv hc, Except.isOk,
            Except.toBool, hx]
        | true =>
          have hok := sortProducts_ok_of_valid now pc strategy hv hc
          have hnx : ¬ ∃ p ∈ pc, p.validate now ≠ [] := by
            rw [← collectionValid_eq_false_iff now pc, hc]
            simp
          simp [hok, hnx]
  · rintro rfl
    exact sortProducts_none now strategy
  · rintro pc rfl hv
    exact sortProducts_invalid_strategy now pc strategy hv
  · rintro pc rfl hv hx
    exact sortProducts_invalid_items now pc strategy hv
      ((collectionValid_eq_false_iff now pc).mpr hx)
  · intro hv
    obtain ⟨less, hless⟩ := createSorterLess_of_valid strategy hv
    exact ⟨newSortResult (sorterSort less []) strategy 0 now,
      (sortProducts_ok_iff now [] strategy _).mpr ⟨hv, rfl, less, hless, rfl⟩, rfl, rfl⟩

theorem claim2_witness :
    sortProducts 200 none SortByPriceAsc = .error .validationFailed :=
  (claim2_sort_error_conditions 200 none SortByPriceAsc).2.1 rfl

/-- C7: for every strategy, re-sorting the output of a sort under the same
strategy reproduces the same sequence. -/
theorem claim7_sort_idempotent (now : GoTime) (l : ProductCollection)
    (strategy : SortStrategy) (r r₂ : SortResult)
    (h : sortProducts now (some l) strategy = .ok r)
    (h₂ : sortProducts now (some r.products) strategy = .ok r₂) :
    r₂.products = r.products := by
  obtain ⟨hv, hc, less, hless, rfl⟩ := (sortProducts_ok_iff now l strategy r).mp h
  obtain ⟨hv₂, hc₂, less₂, hless₂, rfl⟩ := (sortProducts_ok_iff now _ strategy _).mp h₂
  rw [hless] at hless₂
  obtain rfl : less = less₂ := Option.some.inj hless₂
  simp only [newSortResult]
  rcases createSorterLess_eq_some_inv strategy less hless with
    ⟨_, rfl⟩ | ⟨_, rfl⟩ | ⟨_, rfl⟩ | ⟨_, rfl⟩ | ⟨_, rfl⟩ | ⟨_, rfl⟩ | ⟨_, rfl⟩ | ⟨_, rfl⟩
  · exact sorterSort_idem _ _ _ _ priceLess_asc_iff l
  · exact sorterSort_idem _ _ _ _ priceLess_desc_iff l
  · exact sorterSort_idem _ _ _ _ salesConversionRatioLess_iff l
  · exact sorterSort_idem _ _ _ _ createdAtLess_desc_iff l
  · exact sorterSort_idem _ _ _ _ createdAtLess_asc_iff l
  · exact sorterSort_idem _ _ _ _ popularityLess_iff l
  · exact sorterSort_idem _ _ _ _ revenueLess_iff l
  · exact sorterSort_idem _ _ _ _ nameLess_iff l

theorem claim7_witness :
    (newSortResult [prodA, prodB] SortByPriceAsc 0 fixtureNow).products =
      (newSortResult [prodA, prodB] SortByPriceAsc 0 fixtureNow).products :=
  claim7_sort_idempotent fixtureNow [prodA, prodB] SortByPriceAsc
    (newSortResult [prodA, prodB] SortByPriceAsc 0 fixtureNow)
    (newSortResult [prodA, prodB] SortByPriceAsc 0 fixtureNow) rfl rfl

/-- C1 is false as stated: the price-ascending comparator compares the price
only, with no tie-break, so two permutations of the same valid collection —
two items with equal prices and distinct ids — sort to different sequences. -/
theorem claim1_counterexample :
    collectionValid 200 [cxP1, cxP2] = true ∧
    ([cxP1, cxP2] : List Product).map Product.id = [1, 2] ∧
    ([cxP1, cxP2] : List Product).Perm [cxP2, cxP1] ∧
    isValidStrategy SortByPriceAsc = true ∧
    (sortProducts 200 (some [cxP1, cxP2]) SortByPriceAsc).toOption.map SortResult.products
      = some [cxP1, cxP2] ∧
    (sortProducts 200 (some [cxP2, cxP1]) SortByPriceAsc).toOption.map SortResult.products
      = some [cxP2, cxP1] ∧
    ([cxP1, cxP2] : List Product) ≠ [cxP2, cxP1] := by
  refine ⟨?_, ?_, ?_, ?_, ?_, ?_, ?_⟩ <;> decide

/-- C1 (amended): for the six strategies other than price-ascending and
price-descending — whose comparators order by price alone, with no tie-break —
sorting any two permutations of a collection with pairwise-distinct ids
yields the identical output sequence, because those six tie-break chains
terminate at the unique item id. -/
theorem claim1_tiebreak_permutation_invariance (strategy : SortStrategy)
    (hpa : strategy ≠ SortByPriceAsc) (hpd : strategy ≠ SortByPriceDesc)
    (now : GoTime) (l₁ l₂ : ProductCollection) (r₁ r₂ : SortResult)
    (hnd : (l₁.map Product.id).Nodup) (hp : l₁.Perm l₂)
    (h₁ : sortProducts now (some l₁) strategy = .ok r₁)
    (h₂ : sortProducts now (some l₂) strategy = .ok r₂) :
    r₁.products = r₂.products := by
  obtain ⟨hv, hc, less, hless, rfl⟩ := (sortProducts_ok_iff now l₁ strategy r₁).mp h₁
  obtain ⟨hv₂, hc₂, less₂, hless₂, rfl⟩ := (sortProducts_ok_iff now l₂ strategy r₂).mp h₂
  rw [hless] at hless₂
  obtain rfl : less = less₂ := Option.some.inj hless₂
  simp only [newSortResult]
  rcases createSorterLess_eq_some_inv strategy less hless with
    ⟨hs, rfl⟩ | ⟨hs, rfl⟩ | ⟨hs, rfl⟩ | ⟨hs, rfl⟩ | ⟨hs, rfl⟩ | ⟨hs, rfl⟩ | ⟨hs, rfl⟩ |
    ⟨hs, rfl⟩
  · exact absurd hs hpa
  · exact absurd hs hpd
  · exact sorterSort_eq_of_perm _ _ _ _ salesConversionRatioLess_iff
      (fun a b ha hb =>
        (leRel_keys_eq _ _ _ _ salesConversionRatioLess_iff ha hb).2.2) l₁ l₂ hnd hp
  · exact sorterSort_eq_of_perm _ _ _ _ createdAtLess_desc_iff
      (fun a b ha hb =>
        (leRel_keys_eq _ _ _ _ createdAtLess_desc_iff ha hb).2.1) l₁ l₂ hnd hp
  · exact sorterSort_eq_of_perm _ _ _ _ createdAtLess_asc_iff
      (fun a b ha hb =>
        (leRel_keys_eq _ _ _ _ createdAtLess_asc_iff ha hb).2.1) l₁ l₂ hnd hp
  · exact sorterSort_eq_of_perm _ _ _ _ popularityLess_iff
      (fun a b ha hb =>
        (leRel_keys_eq _ _ _ _ popularityLess_iff ha hb).2.2) l₁ l₂ hnd hp
  · exact sorterSort_eq_of_perm _ _ _ _ revenueLess_iff
      (fun a b ha hb =>
        (leRel_keys_eq _ _ _ _ revenueLess_iff ha hb).2.2) l₁ l₂ hnd hp
  · exact sorterSort_eq_of_perm _ _ _ _ nameLess_iff
      (fun a b ha hb =>
        (leRel_keys_eq _ _ _ _ nameLess_iff ha hb).2.1) l₁ l₂ hnd hp

theorem claim1_witness :
    (newSortResult [cxP1, cxP2] SortBySalesConversionRatio 0 200).products =
      (newSortResult [cxP1, cxP2] SortBySalesConversionRatio 0 200).products :=
  claim1_tiebreak_permutation_invariance SortBySalesConversionRatio
    (by decide) (by decide) 200 [cxP1, cxP2] [cxP2, cxP1]
    (newSortResult [cxP1, cxP2] SortBySalesConversionRatio 0 200)
    (newSortResult [cxP1, cxP2] SortBySalesConversionRatio 0 200)
    (by decide) (by decide) rfl rfl

/-- C3: `BatchSort` fails on an empty strategy set, and every call either
fails outright or returns a map holding an entry for every requested strategy
and nothing else — never a partially populated map; it succeeds exactly when
the collection is non-nil and valid, the set is non-empty, and every
strategy is registered. -/
theorem claim3_batch_all_or_nothing (now : GoTime) (products : Option ProductCollection)
    (strategies : SortStrategySet) :
    (strategies = [] → (batchSort now products strategies).isOk = false)
    ∧ (∀ r, batchSort now products strategies = .ok r →
        (∀ s ∈ strategies, (mapLookup r.results s).isSome = true) ∧
        (∀ e ∈ r.results, e.1 ∈ strategies))
    ∧ ((batchSort now products strategies).isOk = true ↔
        products ≠ none ∧ strategies ≠ [] ∧
        (∀ s ∈ strategies, isValidStrategy s = true) ∧
        (∀ p ∈ products.getD [], p.validate now = [])) := by
  refine ⟨?_, ?_, ?_⟩
  · rintro rfl
    cases products with
    | none => rfl
    | some pc => rfl
  · intro r h
    obtain ⟨pc, rfl, hne, hsv, hc, m, hm, rfl⟩ :=
      (batchSort_ok_iff now products strategies r).mp h
    have hlk := batchSortLoop_lookup now (some pc) strategies [] m hm
    have hks := batchSortLoop_keys now (some pc) strategies [] m hm
    constructor
    · intro s hs
      have := hlk s
      rw [if_pos hs] at this
      have hvs : isValidStrategy s = true := (strategySetValid_iff strategies).mp hsv s hs
      have hok : (sortProducts now (some pc) s).isOk = true :=
        sortProducts_ok_of_valid now pc s hvs hc
      show (mapLookup (newBatchSortResult m 0 now).results s).isSome = true
      rw [show (newBatchSortResult m 0 now).results = m from rfl, this]
      exact isOk_toOption_isSome _ hok
    · intro e he
      have hin : e.1 ∈ m.map Prod.fst := List.mem_map.mpr ⟨e, he, rfl⟩
      have := (hks.2 e.1).mp hin
      simpa using this
  · constructor
    · intro h
      obtain ⟨r, hr⟩ := (exceptIsOk_iff _).mp h
      obtain ⟨pc, rfl, hne, hsv, hc, m, hm, rfl⟩ :=
        (batchSort_ok_iff now products strategies r).mp hr
      refine ⟨by simp, hne, (strategySetValid_iff strategies).mp hsv, ?_⟩
      simpa using (collectionValid_iff now pc).mp hc
    · rintro ⟨hnn, hne, hall, hvp⟩
      cases products with
      | none => exact absurd rfl hnn
      | some pc =>
        have hc : collectionValid now pc = true :=
          (collectionValid_iff now pc).mpr (by simpa using hvp)
        have hsv : strategySetValid strategies = true :=
          (strategySetValid_iff strategies).mpr hall
        obtain ⟨m, hm⟩ := batchSortLoop_ok_of now (some pc) strategies []
          (fun s hs => sortProducts_ok_of_valid now pc s (hall s hs) hc)
        have : batchSort now (some pc) strategies = .ok (newBatchSortResult m 0 now) :=
          (batchSort_ok_iff now (some pc) strategies _).mpr
            ⟨pc, rfl, hne, hsv, hc, m, hm, rfl⟩
        rw [this]
        rfl

theorem claim3_witness :
    (batchSort 200 (some []) []).isOk = false :=
  (claim3_batch_all_or_nothing 200 (some []) []).1 rfl

/-- C8: duplicate strategies in a batch request produce exactly one map entry
each, equal to the single-sort result for that strategy; `StrategyCount`
equals the map size, which equals the number of distinct requested
strategies. -/
theorem claim8_batch_dedup_entries (now : GoTime) (products : Option ProductCollection)
    (strategies : SortStrategySet) (r : BatchSortResult)
    (h : batchSort now products strategies = .ok r) :
    r.strategyCount = r.results.length ∧
    r.results.length = strategies.dedup.length ∧
    ∀ s ∈ strategies, mapLookup r.results s = (sortProducts now products s).toOption := by
  obtain ⟨pc, rfl, hne, hsv, hc, m, hm, rfl⟩ :=
    (batchSort_ok_iff now products strategies r).mp h
  have hks := batchSortLoop_keys now (some pc) strategies [] m hm
  have hlk := batchSortLoop_lookup now (some pc) strategies [] m hm
  refine ⟨rfl, ?_, ?_⟩
  · have hkn : (m.map Prod.fst).Nodup := hks.1 (by simp)
    have hkm : ∀ k, k ∈ m.map Prod.fst ↔ k ∈ strategies := by
      intro k
      simpa using hks.2 k
    show m.length = strategies.dedup.length
    calc m.length = (m.map Prod.fst).length := (List.length_map m Prod.fst).symm
      _ = (m.map Prod.fst).toFinset.card := (List.toFinset_card_of_nodup hkn).symm
      _ = strategies.toFinset.card := by
            congr 1
            ext k
            simp [hkm k]
      _ = strategies.dedup.length := List.card_toFinset strategies
  · intro s hs
    have := hlk s
    rw [if_pos hs] at this
    exact this

theorem claim8_witness :
    (newBatchSortResult [(SortByPriceAsc, newSortResult [] SortByPriceAsc 0 200)] 0
        200).strategyCount =
      (newBatchSortResult [(SortByPriceAsc, newSortResult [] SortByPriceAsc 0 200)] 0
        200).results.length ∧
    (newBatchSortResult [(SortByPriceAsc, newSortResult [] SortByPriceAsc 0 200)] 0
        200).results.length = ([SortByPriceAsc, SortByPriceAsc] : SortStrategySet).dedup.length ∧
    ∀ s ∈ ([SortByPriceAsc, SortByPriceAsc] : SortStrategySet),
      mapLookup (newBatchSortResult [(SortByPriceAsc, newSortResult [] SortByPriceAsc 0 200)] 0
        200).results s = (sortProducts 200 (some []) s).toOption :=
  claim8_batch_dedup_entries 200 (some []) [SortByPriceAsc, SortByPriceAsc]
    (newBatchSortResult [(SortByPriceAsc, newSortResult [] SortByPriceAsc 0 200)] 0 200) rfl

/-- C4: at slice level, a sorter call leaves the caller's backing array
untouched for every strategy: it copies the input into a fresh array, sorts
only the copy in place, and returns the fresh slice. -/
theorem claim4_non_mutation (strategy : SortStrategy) (less : Product → Product → Bool)
    (_hfac : createSorterLess strategy = some less) (σ : SliceStore) (r : Nat)
    (hr : r < σ.length) :
    ((sorterSortStore less σ r).1)[r]? = σ[r]? ∧ (sorterSortStore less σ r).2 ≠ r := by
  have hlen : σ.length ≠ r := Nat.ne_of_gt hr
  have hred : sorterSortStore less σ r =
      if (σ.getD r []).isEmpty then ((σ ++ [[]] : SliceStore), σ.length)
      else ((σ ++ [σ.getD r []]).set σ.length
        (sortSlice less ((σ ++ [σ.getD r []]).getD σ.length [])), σ.length) := rfl
  rw [hred]
  by_cases he : (σ.getD r []).isEmpty
  · rw [if_pos he]
    exact ⟨List.getElem?_append_left hr, hlen⟩
  · rw [if_neg he]
    refine ⟨?_, hlen⟩
    show ((σ ++ [σ.getD r []]).set σ.length _)[r]? = σ[r]?
    rw [List.getElem?_set_ne hlen]
    exact List.getElem?_append_left hr

theorem claim4_witness :
    ((sorterSortStore (priceLess true) [[prodA]] 0).1)[0]? = ([[prodA]] : SliceStore)[0]? ∧
    (sorterSortStore (priceLess true) [[prodA]] 0).2 ≠ 0 :=
  claim4_non_mutation SortByPriceAsc (priceLess true) rfl [[prodA]] 0 (by decide)

end Catalog
